import Mathlib

/-!
Shallow embedding of the zone-classification core of `src/App.jsx`
(Bellevue FD Zone Finder): the even-odd ray-casting point-in-polygon
test `isPointInPolygon`, the registry scan `findZone`, the label
centroid `calculatePolygonCenter`, and the registry construction that
attaches display colors to the configured zones.  Coordinates are
modelled by exact rationals; JavaScript numbers appear only through
the comparisons and the one guarded division of the crossing test.
-/

namespace FD

/-- The crossing test for one edge, exactly the `intersect` expression in
the loop body of `isPointInPolygon`: the guard `(yi > lat) !== (yj > lat)`
conjoined with `lng < (xj - xi) * (lat - yi) / (yj - yi) + xi`.
Rational division is total (`x / 0 = 0`); because `&&` masks the second
conjunct whenever the guard fails, the value agrees with the
short-circuiting JavaScript expression (see `edgeCrossesChecked_eq`). -/
def edgeCrosses (lng lat xi yi xj yj : ℚ) : Bool :=
  (decide (yi > lat) != decide (yj > lat)) &&
    decide (lng < (xj - xi) * (lat - yi) / (yj - yi) + xi)

/-- `isPointInPolygon(point, polygon)` from `App.jsx`: the loop
`for (let i = 0, j = polygon.length - 1; i < polygon.length; j = i++)`,
in which `j` is `polygon.length - 1` on the first iteration and `i - 1`
afterwards, toggling `inside` whenever the edge from `polygon[j]` to
`polygon[i]` crosses the rightward horizontal ray from the point. -/
def isPointInPolygon (point : ℚ × ℚ) (polygon : List (ℚ × ℚ)) : Bool :=
  (List.range polygon.length).foldl
    (fun inside i =>
      let vi := polygon.getD i (0, 0)
      let vj := polygon.getD (if i = 0 then polygon.length - 1 else i - 1) (0, 0)
      if edgeCrosses point.1 point.2 vi.1 vi.2 vj.1 vj.2 then !inside else inside)
    false

/-- One zone record as consumed by the classifier: `id`, `name`, display
`color`, and the GeoJSON-style `coordinates` wrapper (a list of rings,
of which entry `0` is the outer boundary). -/
structure Zone where
  id : String
  name : String
  color : String
  coordinates : List (List (ℚ × ℚ))
deriving DecidableEq, Repr, Inhabited

/-- `findZone(coordinates)` from `App.jsx`: scan the registry in order and
return the first zone whose outer ring `zone.coordinates[0]` contains the
point, or `null` (here `none`) when no zone matches.  The module-level
`ZONES` registry the source closes over is passed explicitly. -/
def findZone (coordinates : ℚ × ℚ) (zones : List Zone) : Option Zone :=
  match zones with
  | [] => none
  | zone :: rest =>
    if isPointInPolygon coordinates (zone.coordinates.getD 0 []) then some zone
    else findZone coordinates rest

/-- `calculatePolygonCenter(coordinates)` from `App.jsx`: accumulate the
coordinate sums with `forEach` and divide each by the vertex count. -/
def calculatePolygonCenter (coordinates : List (ℚ × ℚ)) : ℚ × ℚ :=
  let s := coordinates.foldl (fun xy coord => (xy.1 + coord.1, xy.2 + coord.2)) ((0 : ℚ), (0 : ℚ))
  (s.1 / (coordinates.length : ℚ), s.2 / (coordinates.length : ℚ))

/-- The `DISTRICT_COLORS` palette of `App.jsx`. -/
def DISTRICT_COLORS : List String :=
  ["#FF6B6B", "#4ECDC4", "#45B7D1", "#96CEB4", "#FFEAA7",
   "#DFE6E9", "#74B9FF", "#A29BFE", "#FD79A8", "#FDCB6E"]

/-- A configured zone before a color is attached, as read from the
`fireDistrictZones` module: `id`, `name` and the ring wrapper. -/
structure RawZone where
  id : String
  name : String
  coordinates : List (List (ℚ × ℚ))
deriving DecidableEq, Repr, Inhabited

/-- The registry construction of `App.jsx`,
`ZONES = FIRE_DISTRICT_ZONES.map((zone, index) => ({ ...zone, color:
DISTRICT_COLORS[index % DISTRICT_COLORS.length] }))`, applied to an
arbitrary configured list: it attaches a palette color to each entry and
performs no other processing. -/
def assignColors (raw : List RawZone) : List Zone :=
  raw.enum.map (fun iz =>
    { id := iz.2.id, name := iz.2.name,
      color := DISTRICT_COLORS.getD (iz.1 % DISTRICT_COLORS.length) "",
      coordinates := iz.2.coordinates })

/-- The crossing test with the division made explicit: `none` exactly when
the JavaScript expression would evaluate `(lat - yi) / (yj - yi)` with a
zero denominator.  Mirrors the short-circuit of `&&`: the division is
reached only when the guard `(yi > lat) !== (yj > lat)` holds. -/
def edgeCrossesChecked (lng lat xi yi xj yj : ℚ) : Option Bool :=
  if decide (yi > lat) != decide (yj > lat) then
    if yj - yi = 0 then none
    else some (decide (lng < (xj - xi) * (lat - yi) / (yj - yi) + xi))
  else some false

/-- `isPointInPolygon` with every division checked: propagates `none` from
`edgeCrossesChecked`, so it is `none` iff some iteration of the loop would
divide by zero. -/
def isPointInPolygonChecked (point : ℚ × ℚ) (polygon : List (ℚ × ℚ)) : Option Bool :=
  (List.range polygon.length).foldl
    (fun acc i =>
      match acc with
      | none => none
      | some inside =>
        let vi := polygon.getD i (0, 0)
        let vj := polygon.getD (if i = 0 then polygon.length - 1 else i - 1) (0, 0)
        match edgeCrossesChecked point.1 point.2 vi.1 vi.2 vj.1 vj.2 with
        | none => none
        | some c => some (if c then !inside else inside))
    (some false)

/-- The spec's reading of the even-odd rule: iterate over the edges formed
by consecutive vertices `(xi, yi) = ring[i]` and `(xj, yj) = ring[(i+1) mod n]`
(the vertex after the last is the first), toggling an initially false
`inside` flag on exactly the crossing condition of `edgeCrosses`. -/
def isPointInPolygonSpecEO (point : ℚ × ℚ) (polygon : List (ℚ × ℚ)) : Bool :=
  (List.range polygon.length).foldl
    (fun inside i =>
      let vi := polygon.getD i (0, 0)
      let vj := polygon.getD ((i + 1) % polygon.length) (0, 0)
      if edgeCrosses point.1 point.2 vi.1 vi.2 vj.1 vj.2 then !inside else inside)
    false

/-- The crossing test on a packaged edge `(current vertex, other endpoint)`. -/
def crossesEdge (p : ℚ × ℚ) (e : (ℚ × ℚ) × (ℚ × ℚ)) : Bool :=
  edgeCrosses p.1 p.2 e.1.1 e.1.2 e.2.1 e.2.2

/-- The edge list traversed by the source loop: vertex `i` paired with its
cyclic predecessor (`polygon[j]`). -/
def prevEdges (l : List (ℚ × ℚ)) : List ((ℚ × ℚ) × (ℚ × ℚ)) :=
  l.zip (l.rotate (l.length - 1))

/-- The edge list in the spec's reading: vertex `i` paired with its cyclic
successor. -/
def nextEdges (l : List (ℚ × ℚ)) : List ((ℚ × ℚ) × (ℚ × ℚ)) :=
  l.zip (l.rotate 1)

/-- Test fixture: a unit square zone (closed ring). -/
def zoneUnit : Zone :=
  ⟨"zone-1", "Fire District 1", "#FF6B6B", [[(0, 0), (1, 0), (1, 1), (0, 1), (0, 0)]]⟩

/-- Test fixture: a larger square zone overlapping `zoneUnit`. -/
def zoneBig : Zone :=
  ⟨"zone-2", "Fire District 2", "#4ECDC4", [[(0, 0), (2, 0), (2, 2), (0, 2), (0, 0)]]⟩

/-- Test fixture: a triangular configured zone. -/
def rawTriangle : RawZone :=
  ⟨"zone-tri", "Triangle Zone", [[(-1, -1), (1, -1), (0, 1)]]⟩

/-- Test fixture: `rawTriangle` after registry construction attaches the
first palette color. -/
def zoneTriangle : Zone :=
  ⟨"zone-tri", "Triangle Zone", "#FF6B6B", [[(-1, -1), (1, -1), (0, 1)]]⟩

theorem foldl_toggle {α : Type*} (f : α → Bool) (xs : List α) (b : Bool) :
    xs.foldl (fun acc x => if f x then !acc else acc) b
      = (b != decide (Odd (xs.countP f))) := by
  induction xs generalizing b with
  | nil => simp
  | cons x xs ih =>
    rw [List.foldl_cons, ih, List.countP_cons]
    cases hfx : f x
    · simp
    · have hodd : decide (Odd (xs.countP f + 1)) = !decide (Odd (xs.countP f)) := by
        simp only [Nat.odd_add_one, decide_not]
      simp only [if_true, hodd]
      cases b <;> cases hd : decide (Odd (xs.countP f)) <;> rfl

theorem map_range_prevEdges (l : List (ℚ × ℚ)) :
    (List.range l.length).map
      (fun i => (l.getD i (0, 0),
        l.getD (if i = 0 then l.length - 1 else i - 1) (0, 0)))
      = prevEdges l := by
  apply List.ext_getElem
  · simp [prevEdges]
  · intro i h1 h2
    have hi : i < l.length := by simpa using h1
    have hj : (if i = 0 then l.length - 1 else i - 1) = (i + (l.length - 1)) % l.length := by
      rcases Nat.eq_zero_or_pos i with h0 | h0
      · subst h0
        rw [if_pos rfl, Nat.zero_add, Nat.mod_eq_of_lt (by omega)]
      · rw [if_neg (by omega)]
        have : i + (l.length - 1) = (i - 1) + l.length := by omega
        rw [this, Nat.add_mod_right, Nat.mod_eq_of_lt (by omega)]
    simp only [List.getElem_map, List.getElem_range, prevEdges, List.getElem_zip,
      List.getElem_rotate]
    rw [hj, List.getD_eq_getElem _ _ hi, List.getD_eq_getElem]

theorem map_range_nextEdges (l : List (ℚ × ℚ)) :
    (List.range l.length).map
      (fun i => (l.getD i (0, 0), l.getD ((i + 1) % l.length) (0, 0)))
      = nextEdges l := by
  apply List.ext_getElem
  · simp [nextEdges]
  · intro i h1 h2
    have hi : i < l.length := by simpa using h1
    simp only [List.getElem_map, List.getElem_range, nextEdges, List.getElem_zip,
      List.getElem_rotate]
    rw [List.getD_eq_getElem _ _ hi, List.getD_eq_getElem]

/-- The source loop computes the parity of the number of crossing edges,
with the `i`-th vertex paired with its cyclic predecessor. -/
theorem isPointInPolygon_eq_parity (p : ℚ × ℚ) (l : List (ℚ × ℚ)) :
    isPointInPolygon p l = decide (Odd ((prevEdges l).countP (crossesEdge p))) := by
  refine (foldl_toggle (fun i => crossesEdge p (l.getD i (0, 0),
      l.getD (if i = 0 then l.length - 1 else i - 1) (0, 0)))
    (List.range l.length) false).trans ?_
  rw [Bool.false_bne, ← map_range_prevEdges, List.countP_map]
  rfl

/-- The spec-side loop computes the parity of the number of crossing edges,
with the `i`-th vertex paired with its cyclic successor. -/
theorem isPointInPolygonSpecEO_eq_parity (p : ℚ × ℚ) (l : List (ℚ × ℚ)) :
    isPointInPolygonSpecEO p l = decide (Odd ((nextEdges l).countP (crossesEdge p))) := by
  refine (foldl_toggle (fun i => crossesEdge p (l.getD i (0, 0),
      l.getD ((i + 1) % l.length) (0, 0))) (List.range l.length) false).trans ?_
  rw [Bool.false_bne, ← map_range_nextEdges, List.countP_map]
  rfl

theorem zip_rotate {α β : Type*} (l : List α) (m : List β) (k : ℕ)
    (h : l.length = m.length) :
    (l.zip m).rotate k = (l.rotate k).zip (m.rotate k) := by
  rw [List.zip_eq_zipWith, List.zip_eq_zipWith, List.zipWith_rotate_distrib _ _ _ _ h]

/-- Under exact arithmetic the crossing test does not depend on which
endpoint of the edge plays the role of `(xi, yi)`. -/
theorem edgeCrosses_symm (lng lat xi yi xj yj : ℚ) :
    edgeCrosses lng lat xj yj xi yi = edgeCrosses lng lat xi yi xj yj := by
  unfold edgeCrosses
  have h1 : (decide (yj > lat) != decide (yi > lat))
      = (decide (yi > lat) != decide (yj > lat)) := by
    cases hd : decide (yi > lat) <;> cases hd2 : decide (yj > lat) <;> rfl
  by_cases hy : yi = yj
  · subst hy; simp
  · have h2 : yi - yj ≠ 0 := sub_ne_zero.mpr hy
    have h3 : yj - yi ≠ 0 := sub_ne_zero.mpr (Ne.symm hy)
    have key : (xi - xj) * (lat - yj) / (yi - yj) + xj
        = (xj - xi) * (lat - yi) / (yj - yi) + xi := by
      field_simp
      ring
    rw [h1, key]

theorem crossesEdge_swap (p : ℚ × ℚ) (e : (ℚ × ℚ) × (ℚ × ℚ)) :
    crossesEdge p e.swap = crossesEdge p e :=
  edgeCrosses_symm p.1 p.2 e.1.1 e.1.2 e.2.1 e.2.2

theorem countP_map_swap (p : ℚ × ℚ) (es : List ((ℚ × ℚ) × (ℚ × ℚ))) :
    (es.map Prod.swap).countP (crossesEdge p) = es.countP (crossesEdge p) := by
  rw [List.countP_map]
  have : (crossesEdge p ∘ Prod.swap) = crossesEdge p := by
    funext e
    exact crossesEdge_swap p e
  rw [this]

theorem nextEdges_rotate (l : List (ℚ × ℚ)) (k : ℕ) :
    nextEdges (l.rotate k) = (nextEdges l).rotate k := by
  unfold nextEdges
  rw [zip_rotate l (l.rotate 1) k (by simp), List.rotate_rotate, List.rotate_rotate,
    Nat.add_comm]

theorem prevEdges_rotate (l : List (ℚ × ℚ)) (k : ℕ) :
    prevEdges (l.rotate k) = (prevEdges l).rotate k := by
  unfold prevEdges
  rw [List.length_rotate, zip_rotate l (l.rotate (l.length - 1)) k (by simp),
    List.rotate_rotate, List.rotate_rotate, Nat.add_comm]

theorem map_swap_prevEdges (l : List (ℚ × ℚ)) :
    (prevEdges l).map Prod.swap = nextEdges (l.rotate (l.length - 1)) := by
  rcases List.eq_nil_or_concat l with rfl | _
  · rfl
  · have hlen : 0 < l.length := by
      rcases l with _ | ⟨a, l⟩
      · simp_all
      · simp
    unfold prevEdges nextEdges
    rw [List.zip_swap, List.rotate_rotate, Nat.sub_add_cancel hlen, List.rotate_length]

theorem countP_prevEdges_eq_nextEdges (p : ℚ × ℚ) (l : List (ℚ × ℚ)) :
    (prevEdges l).countP (crossesEdge p) = (nextEdges l).countP (crossesEdge p) := by
  rw [← countP_map_swap p (prevEdges l), map_swap_prevEdges, nextEdges_rotate,
    (List.rotate_perm (nextEdges l) (l.length - 1)).countP_eq]

/-- C2: `isPointInPolygon` computes the even-odd ray-casting rule exactly as
the spec states it: iterating over the edges formed by consecutive vertices
with the ring treated as cyclic (the vertex after the last is the first),
toggling an initially false `inside` flag precisely on the crossing
condition, and returning the final flag. -/
theorem isPointInPolygon_eq_specEO (p : ℚ × ℚ) (l : List (ℚ × ℚ)) :
    isPointInPolygon p l = isPointInPolygonSpecEO p l := by
  rw [isPointInPolygon_eq_parity, isPointInPolygonSpecEO_eq_parity,
    countP_prevEdges_eq_nextEdges]

theorem edgeCrossesChecked_eq (lng lat xi yi xj yj : ℚ) :
    edgeCrossesChecked lng lat xi yi xj yj = some (edgeCrosses lng lat xi yi xj yj) := by
  unfold edgeCrossesChecked edgeCrosses
  cases hg : (decide (yi > lat) != decide (yj > lat)) with
  | false => simp [hg]
  | true =>
    have hy : yj - yi ≠ 0 := by
      intro h0
      have hyy : yj = yi := sub_eq_zero.mp h0
      rw [hyy] at hg
      simp at hg
    simp [hg, hy]

theorem foldl_option_lift {α β : Type*} (g : Option β → α → Option β) (h : β → α → β)
    (hg : ∀ b x, g (some b) x = some (h b x)) (xs : List α) (b : β) :
    xs.foldl g (some b) = some (xs.foldl h b) := by
  induction xs generalizing b with
  | nil => rfl
  | cons x xs ih => rw [List.foldl_cons, hg, List.foldl_cons, ih]

/-- C3: the division by `(yj - yi)` is never a division by zero.  The checked
interpreter, which returns `none` exactly when the loop would evaluate the
division with a zero denominator, always returns `some` of the unchecked
result: the guard `(yi > lat) !== (yj > lat)` entails `yi != yj`, so the
division-by-zero branch is unreachable for every point and every ring. -/
theorem isPointInPolygonChecked_eq (p : ℚ × ℚ) (l : List (ℚ × ℚ)) :
    isPointInPolygonChecked p l = some (isPointInPolygon p l) := by
  unfold isPointInPolygonChecked isPointInPolygon
  refine foldl_option_lift _ _ ?_ (List.range l.length) false
  intro b i
  simp only [edgeCrossesChecked_eq]

/-- C4: rotating the vertex list of a ring cyclically (same polygon,
different starting vertex) does not change the result of
`isPointInPolygon` for any fixed point. -/
theorem isPointInPolygon_rotate (p : ℚ × ℚ) (l : List (ℚ × ℚ)) (k : ℕ)
    (h : 3 ≤ l.length) :
    isPointInPolygon p (l.rotate k) = isPointInPolygon p l := by
  rw [isPointInPolygon_eq_parity, isPointInPolygon_eq_parity, prevEdges_rotate,
    (List.rotate_perm (prevEdges l) k).countP_eq]

/-- Witness for C4 at a concrete triangle, rotation amount 1 and test point. -/
theorem isPointInPolygon_rotate_witness :
    3 ≤ ([((-1 : ℚ), -1), (1, -1), (0, 1)] : List (ℚ × ℚ)).length ∧
      isPointInPolygon (0, 0) (([((-1 : ℚ), -1), (1, -1), (0, 1)]).rotate 1)
        = isPointInPolygon (0, 0) [((-1 : ℚ), -1), (1, -1), (0, 1)] :=
  ⟨by decide, isPointInPolygon_rotate (0, 0) [((-1 : ℚ), -1), (1, -1), (0, 1)] 1 (by decide)⟩

theorem crossesEdge_diag (p : ℚ × ℚ) (v : ℚ × ℚ) : crossesEdge p (v, v) = false := by
  simp [crossesEdge, edgeCrosses]

/-- C5: a ring given with its first vertex repeated at the end (explicitly
closed) produces the same result as the same ring with that duplicate
removed, for every point. -/
theorem isPointInPolygon_closed_ring (p : ℚ × ℚ) (v : ℚ × ℚ) (rest : List (ℚ × ℚ)) :
    isPointInPolygon p ((v :: rest) ++ [v]) = isPointInPolygon p (v :: rest) := by
  set l := v :: rest with hl
  have hn : 1 ≤ l.length := by simp [hl]
  have hrot : (l ++ [v]).rotate l.length = v :: l := by
    rw [List.rotate_eq_drop_append_take (by simp), List.drop_left, List.take_left]
    rfl
  have hedges : prevEdges (l ++ [v]) = (v, v) :: (prevEdges l).rotate 1 := by
    unfold prevEdges
    rw [show (l ++ [v]).length - 1 = l.length by simp, hrot,
      zip_rotate l (l.rotate (l.length - 1)) 1 (by simp),
      List.rotate_rotate, Nat.sub_add_cancel hn, List.rotate_length]
    have hr1 : l.rotate 1 = rest ++ [v] := by
      rw [List.rotate_eq_drop_append_take (by simp [hl])]
      rfl
    rw [hr1, hl]
    rfl
  rw [isPointInPolygon_eq_parity, isPointInPolygon_eq_parity, hedges, List.countP_cons,
    crossesEdge_diag, (List.rotate_perm (prevEdges l) 1).countP_eq]
  simp

theorem zip_reverse {α β : Type*} (l : List α) (m : List β) (h : l.length = m.length) :
    l.reverse.zip m.reverse = (l.zip m).reverse := by
  induction l generalizing m with
  | nil =>
    cases m with
    | nil => rfl
    | cons b m => simp at h
  | cons a l ih =>
    cases m with
    | nil => simp at h
    | cons b m =>
      simp only [List.reverse_cons]
      rw [List.zip_append (by simp at h ⊢; omega), ih m (by simpa using h)]
      simp

/-- C6: reversing the vertex order of a ring (the opposite winding
direction of the same polygon) does not change the result of
`isPointInPolygon`. -/
theorem isPointInPolygon_reverse (p : ℚ × ℚ) (l : List (ℚ × ℚ)) (h : 3 ≤ l.length) :
    isPointInPolygon p l.reverse = isPointInPolygon p l := by
  have hrev : prevEdges l.reverse = (nextEdges l).reverse := by
    unfold prevEdges nextEdges
    rw [List.length_reverse]
    have h1 : l.reverse.rotate (l.length - 1) = (l.rotate 1).reverse := by
      rw [List.reverse_rotate, Nat.mod_eq_of_lt (by omega)]
    rw [h1, zip_reverse _ _ (by simp)]
  rw [isPointInPolygon_eq_parity, isPointInPolygon_eq_parity, hrev, List.countP_reverse,
    ← countP_prevEdges_eq_nextEdges]

/-- Witness for C6 at a concrete triangle and test point. -/
theorem isPointInPolygon_reverse_witness :
    3 ≤ ([((-1 : ℚ), -1), (1, -1), (0, 1)] : List (ℚ × ℚ)).length ∧
      isPointInPolygon (0, 0) (([((-1 : ℚ), -1), (1, -1), (0, 1)]).reverse)
        = isPointInPolygon (0, 0) [((-1 : ℚ), -1), (1, -1), (0, 1)] :=
  ⟨by decide, isPointInPolygon_reverse (0, 0) [((-1 : ℚ), -1), (1, -1), (0, 1)] (by decide)⟩

/-- Full characterization of `findZone`: `none` iff no zone's outer ring
contains the point, and `some z` iff `z` is the first zone in registry
order whose outer ring contains the point. -/
theorem findZone_characterization (p : ℚ × ℚ) (reg : List Zone) :
    (findZone p reg = none ↔
      ∀ z ∈ reg, isPointInPolygon p (z.coordinates.getD 0 []) = false) ∧
    (∀ z : Zone, findZone p reg = some z ↔
      ∃ pre post, reg = pre ++ z :: post ∧
        isPointInPolygon p (z.coordinates.getD 0 []) = true ∧
        ∀ w ∈ pre, isPointInPolygon p (w.coordinates.getD 0 []) = false) := by
  induction reg with
  | nil =>
    refine ⟨by simp [findZone], fun z => ⟨fun h => by simp [findZone] at h, ?_⟩⟩
    rintro ⟨pre, post, habs, -, -⟩
    exact absurd habs (by simp)
  | cons z0 rest ih =>
    by_cases h0 : isPointInPolygon p (z0.coordinates.getD 0 []) = true
    · have hfz : findZone p (z0 :: rest) = some z0 := by
        simp only [findZone]
        rw [if_pos h0]
      constructor
      · rw [hfz]
        constructor
        · intro hc; exact absurd hc (by simp)
        · intro hall
          exfalso
          have hth := hall z0 (List.mem_cons_self z0 rest)
          rw [h0] at hth
          simp at hth
      · intro z
        rw [hfz]
        constructor
        · intro hz
          injection hz with hz0
          subst hz0
          exact ⟨[], rest, rfl, h0, by simp⟩
        · rintro ⟨pre, post, heq, hz, hpre⟩
          cases pre with
          | nil =>
            simp only [List.nil_append] at heq
            injection heq with h1 h2
            rw [h1]
          | cons w pre =>
            exfalso
            injection heq with h1 h2
            have hw := hpre w (by simp)
            rw [← h1, h0] at hw
            simp at hw
    · have hf : isPointInPolygon p (z0.coordinates.getD 0 []) = false := by
        cases hb : isPointInPolygon p (z0.coordinates.getD 0 [])
        · rfl
        · exact absurd hb h0
      have hfz : findZone p (z0 :: rest) = findZone p rest := by
        simp only [findZone]
        rw [if_neg h0]
      constructor
      · rw [hfz, ih.1]
        constructor
        · intro hall z hz
          rcases List.mem_cons.mp hz with rfl | hz'
          · exact hf
          · exact hall z hz'
        · intro hall z hz
          exact hall z (List.mem_cons_of_mem _ hz)
      · intro z
        rw [hfz, ih.2 z]
        constructor
        · rintro ⟨pre, post, heq, hz, hpre⟩
          refine ⟨z0 :: pre, post, by rw [heq]; rfl, hz, ?_⟩
          intro w hw
          rcases List.mem_cons.mp hw with rfl | hw'
          · exact hf
          · exact hpre w hw'
        · rintro ⟨pre, post, heq, hz, hpre⟩
          cases pre with
          | nil =>
            exfalso
            simp only [List.nil_append] at heq
            injection heq with h1 h2
            rw [← h1] at hz
            exact absurd hz h0
          | cons w pre =>
            injection heq with h1 h2
            exact ⟨pre, post, h2, hz, fun u hu => hpre u (by simp [hu])⟩

/-- C1: `findZone` returns the first zone in registry order whose outer
boundary ring contains the point per `isPointInPolygon`, and `none` when no
zone's boundary contains it; in particular, when two zones both contain the
point, the one appearing earlier in registry order is returned. -/
theorem findZone_first_match (p : ℚ × ℚ) (reg : List Zone) :
    (findZone p reg = none ↔
      ∀ z ∈ reg, isPointInPolygon p (z.coordinates.getD 0 []) = false) ∧
    (∀ z : Zone, findZone p reg = some z ↔
      ∃ pre post, reg = pre ++ z :: post ∧
        isPointInPolygon p (z.coordinates.getD 0 []) = true ∧
        ∀ w ∈ pre, isPointInPolygon p (w.coordinates.getD 0 []) = false) ∧
    (∀ pre z1 mid z2 post, reg = pre ++ z1 :: (mid ++ z2 :: post) →
      isPointInPolygon p (z1.coordinates.getD 0 []) = true →
      isPointInPolygon p (z2.coordinates.getD 0 []) = true →
      (∀ w ∈ pre, isPointInPolygon p (w.coordinates.getD 0 []) = false) →
      findZone p reg = some z1) := by
  refine ⟨(findZone_characterization p reg).1, (findZone_characterization p reg).2, ?_⟩
  intro pre z1 mid z2 post heq h1 h2 hpre
  exact ((findZone_characterization p reg).2 z1).mpr ⟨pre, mid ++ z2 :: post, heq, h1, hpre⟩

/-- Witness for C1: two overlapping squares both containing the point; the
zone earlier in registry order wins. -/
theorem findZone_first_match_witness :
    findZone (1/2, 1/2) [zoneUnit, zoneBig] = some zoneUnit :=
  (findZone_first_match (1/2, 1/2) [zoneUnit, zoneBig]).2.2 [] zoneUnit [] zoneBig []
    rfl (by with_unfolding_all decide) (by with_unfolding_all decide) (by simp)

/-- C7: `findZone` is total: it always returns a definite Zone-or-none
value, and on the empty registry it returns `none` for every point. -/
theorem findZone_total (p : ℚ × ℚ) (reg : List Zone) :
    (findZone p reg = none ∨ ∃ z, findZone p reg = some z) ∧
    findZone p ([] : List Zone) = none := by
  constructor
  · cases h : findZone p reg with
    | none => exact Or.inl rfl
    | some z => exact Or.inr ⟨z, rfl⟩
  · rfl

theorem foldl_pair_add (xs : List (ℚ × ℚ)) :
    ∀ a b : ℚ, xs.foldl (fun xy coord => (xy.1 + coord.1, xy.2 + coord.2)) (a, b)
      = (a + (xs.map Prod.fst).sum, b + (xs.map Prod.snd).sum) := by
  induction xs with
  | nil => intro a b; simp
  | cons c xs ih =>
    intro a b
    rw [List.foldl_cons, ih]
    simp [add_assoc]

/-- C9: for a non-empty ring, `calculatePolygonCenter` is exactly the
arithmetic mean of the vertex coordinates: the sum of longitudes and the
sum of latitudes, each divided by the vertex count. -/
theorem calculatePolygonCenter_mean (ring : List (ℚ × ℚ)) (h : ring ≠ []) :
    calculatePolygonCenter ring
      = ((ring.map Prod.fst).sum / (ring.length : ℚ),
         (ring.map Prod.snd).sum / (ring.length : ℚ)) := by
  unfold calculatePolygonCenter
  rw [foldl_pair_add]
  simp

/-- Witness for C9 at a concrete triangle. -/
theorem calculatePolygonCenter_mean_witness :
    ([((0 : ℚ), (0 : ℚ)), (2, 0), (0, 2)] : List (ℚ × ℚ)) ≠ [] ∧
      calculatePolygonCenter [((0 : ℚ), (0 : ℚ)), (2, 0), (0, 2)]
        = (([((0 : ℚ), (0 : ℚ)), (2, 0), (0, 2)].map Prod.fst).sum
             / (([((0 : ℚ), (0 : ℚ)), (2, 0), (0, 2)] : List (ℚ × ℚ)).length : ℚ),
           ([((0 : ℚ), (0 : ℚ)), (2, 0), (0, 2)].map Prod.snd).sum
             / (([((0 : ℚ), (0 : ℚ)), (2, 0), (0, 2)] : List (ℚ × ℚ)).length : ℚ)) :=
  ⟨by simp, calculatePolygonCenter_mean _ (by simp)⟩

/-- A ring with fewer than three vertices contains no point: with zero
vertices no edge is examined, with one vertex the single self-edge has
equal endpoint latitudes, and with two vertices the two opposite
orientations of the same segment toggle together. -/
theorem isPointInPolygon_short (p : ℚ × ℚ) (l : List (ℚ × ℚ)) (h : l.length < 3) :
    isPointInPolygon p l = false := by
  rcases l with _ | ⟨a, _ | ⟨b, _ | ⟨c, rest⟩⟩⟩
  · rfl
  · rw [isPointInPolygon_eq_parity]
    have he : prevEdges [a] = [(a, a)] := rfl
    rw [he, List.countP_cons, List.countP_nil, crossesEdge_diag]
    simp
  · rw [isPointInPolygon_eq_parity]
    have he : prevEdges [a, b] = [(a, b), (b, a)] := rfl
    have hsw : crossesEdge p (b, a) = crossesEdge p (a, b) := crossesEdge_swap p (a, b)
    rw [he, List.countP_cons, List.countP_cons, List.countP_nil, hsw]
    cases hc : crossesEdge p (a, b) <;> simp [hc, Nat.odd_iff]
  · exfalso
    simp at h
    omega

/-- C10: under exact arithmetic, a degenerate ring with fewer than 3
vertices contains no point, and consequently `findZone` never returns a
zone whose outer boundary is such a ring. -/
theorem degenerate_ring_never_matches (p : ℚ × ℚ) :
    (∀ l : List (ℚ × ℚ), l.length < 3 → isPointInPolygon p l = false) ∧
    (∀ (reg : List Zone) (z : Zone), findZone p reg = some z →
      ¬ (z.coordinates.getD 0 []).length < 3) := by
  refine ⟨fun l h => isPointInPolygon_short p l h, ?_⟩
  intro reg z hz hlen
  rcases ((findZone_characterization p reg).2 z).mp hz with ⟨-, -, -, hcont, -⟩
  rw [isPointInPolygon_short p _ hlen] at hcont
  exact Bool.false_ne_true hcont

/-- Witness for C10: a two-vertex ring rejects a point, and a concrete
successful lookup returns a zone with a three-vertex boundary. -/
theorem degenerate_ring_never_matches_witness :
    (([((1 : ℚ), 1), (2, 2)] : List (ℚ × ℚ)).length < 3 ∧
      isPointInPolygon (0, 0) [((1 : ℚ), 1), (2, 2)] = false) ∧
    (findZone (0, 0) [zoneTriangle] = some zoneTriangle ∧
      ¬ ((zoneTriangle.coordinates.getD 0 []).length < 3)) :=
  ⟨⟨by decide, (degenerate_ring_never_matches (0, 0)).1 _ (by decide)⟩,
   ⟨by with_unfolding_all decide,
    (degenerate_ring_never_matches (0, 0)).2 [zoneTriangle] zoneTriangle
      (by with_unfolding_all decide)⟩⟩

/-- Counterexample to C8: a malformed zone whose boundary has only 2
vertices is accepted by the registry construction with no error of any
kind — construction just attaches a palette color — and a subsequent
lookup returns a definite `none` instead of raising. -/
theorem assignColors_accepts_two_vertex_zone :
    assignColors [⟨"zone-bad", "Bad Zone", [[(0, 0), (4, 4)]]⟩]
        = [{ id := "zone-bad", name := "Bad Zone", color := "#FF6B6B",
             coordinates := [[(0, 0), (4, 4)]] }] ∧
      findZone (2, 2) (assignColors [⟨"zone-bad", "Bad Zone", [[(0, 0), (4, 4)]]⟩]) = none :=
  ⟨by with_unfolding_all decide, by with_unfolding_all decide⟩

/-- C8 amended: registry construction performs no validation at all — it
accepts every configured list, preserving length and boundaries and only
attaching colors — and no error surfaces at lookup time either: the
classifier never validates, and a zone whose outer boundary has fewer than
3 vertices is simply never matched. -/
theorem assignColors_no_validation (raw : List RawZone) (p : ℚ × ℚ) :
    (assignColors raw).length = raw.length ∧
    (∀ i, i < raw.length →
      ((assignColors raw).getD i default).coordinates = (raw.getD i default).coordinates) ∧
    (∀ z : Zone, findZone p (assignColors raw) = some z →
      ¬ (z.coordinates.getD 0 []).length < 3) := by
  refine ⟨by simp [assignColors, List.enum_eq_enumFrom], ?_, ?_⟩
  · intro i hi
    have hlen : i < (assignColors raw).length := by
      simp [assignColors, List.enum_eq_enumFrom]
      exact hi
    rw [List.getD_eq_getElem _ _ hlen, List.getD_eq_getElem _ _ hi]
    simp [assignColors, List.enum_eq_enumFrom, List.getElem_enumFrom]
  · intro z hz hlen
    rcases ((findZone_characterization p (assignColors raw)).2 z).mp hz with
      ⟨-, -, -, hcont, -⟩
    rw [isPointInPolygon_short p _ hlen] at hcont
    exact Bool.false_ne_true hcont

/-- Witness for C8's amended claim at a concrete one-zone configuration. -/
theorem assignColors_no_validation_witness :
    (assignColors [rawTriangle]).length = [rawTriangle].length ∧
    ((assignColors [rawTriangle]).getD 0 default).coordinates
      = ([rawTriangle].getD 0 default).coordinates ∧
    (findZone (0, 0) (assignColors [rawTriangle]) = some zoneTriangle ∧
      ¬ ((zoneTriangle.coordinates.getD 0 []).length < 3)) :=
  ⟨(assignColors_no_validation [rawTriangle] (0, 0)).1,
   (assignColors_no_validation [rawTriangle] (0, 0)).2.1 0 (by decide),
   ⟨by with_unfolding_all decide,
    (assignColors_no_validation [rawTriangle] (0, 0)).2.2 zoneTriangle
      (by with_unfolding_all decide)⟩⟩

/-- Scenario A of the spec: the square zone boundary contains the interior
test point. -/
theorem scenarioA_inside :
    isPointInPolygon (-122.19, 47.60)
      [(-122.2015, 47.6101), (-122.1815, 47.6101), (-122.1815, 47.5901),
       (-122.2015, 47.5901), (-122.2015, 47.6101)] = true := by
  with_unfolding_all decide

/-- Scenario B of the spec: a point far east of the square is rejected. -/
theorem scenarioB_outside :
    isPointInPolygon (-122.00, 47.60)
      [(-122.2015, 47.6101), (-122.1815, 47.6101), (-122.1815, 47.5901),
       (-122.2015, 47.5901), (-122.2015, 47.6101)] = false := by
  with_unfolding_all decide

end FD
